import Mathlib

/-
  Verification of the storefront front-end (src/js/app.js).

  Shallow embedding conventions:
  - Product ids and cart quantities are JS numbers used as integers; they are
    modelled as Int.
  - Prices and other JS numerics appearing in JSON are modelled as rationals.
  - The cart is the in-memory array of cart lines, in insertion order.
  - localStorage and JSON.parse/JSON.stringify are modelled at the level of
    JSON values: the stored slot either is absent, holds a malformed string
    (JSON.parse throws), or holds a well-formed serialization of a JS value.
  - DOM rendering is out of scope; operations that touch the DOM are modelled
    by their effect on the state and the user-visible notices they emit.
-/

/-- A catalog product, as fetched from the API (spec section 3). -/
structure Product where
  id : Int
  title : String
  price : ℚ
  description : String
  category : String
  image : String
deriving DecidableEq, Repr

/-- A cart line: the spread of a product plus a qty field, as built by
addToCart via the object spread in src/js/app.js line 202. -/
structure CartLine where
  id : Int
  title : String
  price : ℚ
  description : String
  category : String
  image : String
  qty : Int
deriving DecidableEq, Repr

/-- The JS object spread: a cart line carrying all fields of the product
plus the given quantity. -/
def Product.toLine (p : Product) (qty : Int) : CartLine :=
  ⟨p.id, p.title, p.price, p.description, p.category, p.image, qty⟩

/-- The in-memory cart array. -/
abbrev Cart := List CartLine

/-- The list of product ids present in the cart. -/
def cartIds (c : Cart) : List Int := c.map CartLine.id

/-- The cart invariant from spec section 3: at most one cart line per product
id, and every quantity is at least 1. -/
def cartInv (c : Cart) : Prop :=
  (cartIds c).Nodup ∧ ∀ l ∈ c, 1 ≤ l.qty

/-- addToCart (src/js/app.js lines 199-208): if a line whose id equals the
product id is found, increment its qty in place; otherwise push a fresh line
with qty 1 at the end. The DOM/toast/openCart side effects are out of scope. -/
def addToCart (prod : Product) : Cart → Cart
  | [] => [prod.toLine 1]
  | l :: ls =>
    if l.id = prod.id then { l with qty := l.qty + 1 } :: ls
    else l :: addToCart prod ls

/-- changeQty (src/js/app.js lines 219-226): if no line has the id, return
(a no-op, nothing is saved); otherwise the found line's qty becomes
max 1 (qty + q). -/
def changeQty (id q : Int) : Cart → Cart
  | [] => []
  | l :: ls =>
    if l.id = id then { l with qty := max 1 (l.qty + q) } :: ls
    else l :: changeQty id q ls

/-- removeFromCart (src/js/app.js lines 228-232): keep the lines whose id
differs from the given id. -/
def removeFromCart (id : Int) (c : Cart) : Cart :=
  c.filter fun l => l.id != id

/-- clearCart (src/js/app.js lines 234-240): no-op on an empty cart; otherwise
the confirm prompt decides whether the cart is emptied. -/
def clearCart (confirmed : Bool) (c : Cart) : Cart :=
  if c.isEmpty then c
  else if confirmed then [] else c

/-- n consecutive addToCart calls for the same product. -/
def addTimes (p : Product) : Nat → Cart → Cart
  | 0, c => c
  | n + 1, c => addToCart p (addTimes p n c)

/-- Item count as computed by updateCartUI (src/js/app.js line 243):
cart.reduce over qty starting at 0. -/
def cartItemCount (c : Cart) : Int :=
  c.foldl (fun a i => a + i.qty) 0

/-- Grand total as computed by updateCartUI (src/js/app.js lines 264-265):
cart.reduce over price * qty starting at 0. -/
def cartGrandTotal (c : Cart) : ℚ :=
  c.foldl (fun t i => t + i.price * i.qty) 0

/-- The displayed total: toFixed(2) rounds to two decimal places; we model the
numeric value shown. -/
def round2 (x : ℚ) : ℚ := (round (x * 100) : ℤ) / 100

/-- JSON values, the possible results of JSON.parse and inputs of
JSON.stringify. Numbers are modelled as rationals. -/
inductive JVal where
  | null
  | bool (b : Bool)
  | num (q : ℚ)
  | str (s : String)
  | arr (elems : List JVal)
  | obj (fields : List (String × JVal))

/-- JS falsiness of a parsed JSON value, as used by the expression
JSON.parse(...) || [] in loadCart: null, false, 0 and the empty string are
falsy; every array and object is truthy. -/
def jsFalsy : JVal → Bool
  | .null => true
  | .bool b => !b
  | .num q => q == 0
  | .str s => s == ""
  | .arr _ => false
  | .obj _ => false

/-- The content of the localStorage slot named cart, seen through JSON.parse:
either the stored string is malformed (JSON.parse throws) or it is the
serialization of a JS value. -/
inductive Slot where
  | malformed
  | wellFormed (v : JVal)

/-- JSON.stringify of one cart line: a JS object whose keys follow the spread
order of addToCart (the product fields, then qty). -/
def encodeLine (l : CartLine) : JVal :=
  .obj [("id", .num l.id), ("title", .str l.title), ("price", .num l.price),
        ("description", .str l.description), ("category", .str l.category),
        ("image", .str l.image), ("qty", .num l.qty)]

/-- JSON.stringify of the cart array. -/
def encodeCart (c : Cart) : JVal := .arr (c.map encodeLine)

/-- loadCart (src/js/app.js lines 294-300): JSON.parse(localStorage.getItem)
|| [] inside try/catch. A missing key parses to null (falsy, so []); a
malformed string throws and the catch returns []; a well-formed falsy value
falls back to []; any other parsed value is returned as-is, with no shape
validation. Defined totally: it never raises. -/
def loadCart : Option Slot → JVal
  | none => .arr []
  | some .malformed => .arr []
  | some (.wellFormed v) => if jsFalsy v then .arr [] else v

/-- saveCart (src/js/app.js lines 302-304): overwrite the slot with the
serialized cart. -/
def saveCart (c : Cart) : Option Slot :=
  some (.wellFormed (encodeCart c))

/-- Read one cart line back from a JSON value. loadCart itself performs no
such decoding; this function witnesses that encodeLine loses no information. -/
def decodeLine : JVal → Option CartLine
  | .obj [("id", .num i), ("title", .str t), ("price", .num pr),
          ("description", .str d), ("category", .str cat),
          ("image", .str img), ("qty", .num q)] =>
    if i.den = 1 ∧ q.den = 1 then some ⟨i.num, t, pr, d, cat, img, q.num⟩
    else none
  | _ => none

/-- Decode a list of JSON values as cart lines, failing if any element fails. -/
def decodeLines : List JVal → Option Cart
  | [] => some []
  | v :: vs =>
    match decodeLine v, decodeLines vs with
    | some l, some ls => some (l :: ls)
    | _, _ => none

/-- Read a cart back from a JSON value: an array of cart lines. -/
def decodeCart : JVal → Option Cart
  | .arr elems => decodeLines elems
  | _ => none

/-- The application state touched by checkout: the cart, the persisted slot,
and whether the cart panel is hidden. -/
structure AppState where
  cart : Cart
  stored : Option Slot
  cartPanelHidden : Bool

/-- checkout (src/js/app.js lines 284-291): on an empty cart, alert and
return with no state change (no save, no view change); otherwise alert
success, empty the cart, persist it, and close the cart panel. The second
component collects the alert messages shown. -/
def checkout (s : AppState) : AppState × List String :=
  if s.cart.isEmpty then (s, ["Carrito vacío"])
  else ({ cart := [], stored := saveCart [], cartPanelHidden := true },
        ["Compra realizada (demo)"])

/-- The cart states reachable from the empty cart via the cart engine
operations (add, changeQty, remove, clear, checkout). -/
inductive Reachable : Cart → Prop where
  | empty : Reachable []
  | add (p : Product) {c : Cart} : Reachable c → Reachable (addToCart p c)
  | change (id q : Int) {c : Cart} : Reachable c → Reachable (changeQty id q c)
  | rem (id : Int) {c : Cart} : Reachable c → Reachable (removeFromCart id c)
  | clear (confirmed : Bool) {c : Cart} :
      Reachable c → Reachable (clearCart confirmed c)
  | doCheckout (st : Option Slot) (hid : Bool) {c : Cart} :
      Reachable c → Reachable (checkout ⟨c, st, hid⟩).1.cart

/-- The characters matched by the regex \s for the inputs in scope here
(ASCII whitespace and the no-break space). -/
def jsWhitespaceChar (c : Char) : Bool :=
  c == ' ' || c == '\t' || c == '\n' || c == '\r' ||
  c == '\x0b' || c == '\x0c' || c == '\u00A0'

/-- JS String.prototype.trim on a character list: strip whitespace from both
ends. -/
def trimChars (cs : List Char) : List Char :=
  ((cs.dropWhile jsWhitespaceChar).reverse.dropWhile jsWhitespaceChar).reverse

/-- JS String.prototype.trim. -/
def jsTrim (s : String) : String :=
  String.mk (trimChars s.toList)

/-- JS String.prototype.toLowerCase (for the ASCII inputs in scope here). -/
def toLowerStr (s : String) : String :=
  String.mk (s.toList.map Char.toLower)

/-- Does the list start with the given pattern? (String.prototype.includes,
helper.) -/
def listStartsWith : List Char → List Char → Bool
  | [], _ => true
  | _ :: _, [] => false
  | a :: as, b :: bs => a == b && listStartsWith as bs

/-- Substring test on character lists: some suffix starts with the pattern. -/
def listContainsSub (sub : List Char) : List Char → Bool
  | [] => listStartsWith sub []
  | c :: rest => listStartsWith sub (c :: rest) || listContainsSub sub rest

/-- JS String.prototype.includes. -/
def strIncludes (s q : String) : Bool :=
  listContainsSub q.toList s.toList

/-- applyFilters (src/js/app.js lines 165-175): the search box value is
trimmed and lowercased, then the catalog is filtered by category (with the
sentinel all) and by substring match on the lowercased title or description. -/
def applyFilters (prods : List Product) (categoryValue searchValue : String) :
    List Product :=
  let q := toLowerStr (jsTrim searchValue)
  prods.filter fun p =>
    (categoryValue == "all" || p.category == categoryValue) &&
    (strIncludes (toLowerStr p.title) q || strIncludes (toLowerStr p.description) q)

/-- The spec-side notion: q is a case-insensitive substring of s. -/
def ciSubstring (q s : String) : Prop :=
  ∃ a b, (toLowerStr s).toList = a ++ (toLowerStr q).toList ++ b

/-- The spec-side filter criterion of section 4.1: category matches (or is the
sentinel all) and the query is a case-insensitive substring of the title or of
the description. -/
def specFilterMatch (categoryValue searchValue : String) (p : Product) : Prop :=
  (categoryValue = "all" ∨ p.category = categoryValue) ∧
  (ciSubstring searchValue p.title ∨ ciSubstring searchValue p.description)

/-- handleProductClick, add branch (src/js/app.js lines 181-193): a falsy
clicked id (0 as an integer) returns at once, leaving the cart unchanged;
otherwise the id is looked up in the product list and the result passed to
addToCart. When no product matches, find returns undefined and addToCart
throws a TypeError on reading prod.id; the thrown error is modelled by none,
a silent return by some of the unchanged cart. -/
def handleAddClick (prods : List Product) (id : Int) (c : Cart) :
    Option Cart :=
  if id == 0 then some c
  else
    match prods.find? (fun p => p.id == id) with
    | some prod => some (addToCart prod c)
    | none => none

/-- The character class of the email regex: neither whitespace nor the at
sign. -/
def okChar (c : Char) : Bool :=
  !jsWhitespaceChar c && c != '@'

/-- Is there a dot at some position that is not the last position? -/
def dotNotLast : List Char → Bool
  | c :: d :: rest => c == '.' || dotNotLast (d :: rest)
  | _ => false

/-- Can the list be split as D ++ dot ++ T with D and T nonempty? This is
what the regex fragment matching the domain demands of the text after the at
sign. -/
def dotSplitOk : List Char → Bool
  | [] => false
  | _ :: tail => dotNotLast tail

/-- Matcher for the anchored email regex of validateContact
(src/js/app.js line 336): one or more characters that are neither whitespace
nor an at sign, one at sign, then text in the same class that splits around a
literal dot with nonempty sides. Since every class excludes the at sign, a
matching string has exactly one at sign, at the position found by takeWhile. -/
def emailChars (cs : List Char) : Bool :=
  match cs.dropWhile (fun c => c != '@') with
  | c :: rest =>
    c == '@' &&
    !(cs.takeWhile (fun c => c != '@')).isEmpty &&
    (cs.takeWhile (fun c => c != '@')).all okChar &&
    !rest.isEmpty && rest.all okChar && dotSplitOk rest
  | [] => false

/-- The email regex test on strings. -/
def emailRegexTest (s : String) : Bool :=
  emailChars s.toList

/-- The raw contact fields after the trimming done by handleContactForm. -/
structure ContactData where
  name : String
  email : String
  message : String
deriving DecidableEq, Repr

/-- The error mapping: one optional message per field; none means the field
is absent from the mapping. -/
structure ContactErrors where
  name : Option String
  email : Option String
  message : Option String
deriving DecidableEq, Repr

/-- validateContact (src/js/app.js lines 333-339). -/
def validateContact (d : ContactData) : ContactErrors where
  name :=
    if d.name.length < 2 then some "El nombre debe tener al menos 2 caracteres"
    else none
  email :=
    if emailRegexTest d.email then none else some "Email inválido"
  message :=
    if d.message.length < 10 then some "Mensaje demasiado corto" else none

/-- handleContactForm (src/js/app.js lines 313-318) trims each field before
validating. -/
def contactFormData (name email message : String) : ContactData :=
  ⟨jsTrim name, jsTrim email, jsTrim message⟩

/-- The spec-side email shape of section 4.4: local at-sign domain dot tld,
with the at sign and the dot literal separators and every part nonempty and
free of whitespace (and of further at signs, reading an at as the unique
separator). -/
def specEmailShaped (s : String) : Prop :=
  ∃ l d t : List Char,
    s.toList = l ++ '@' :: (d ++ '.' :: t) ∧
    l ≠ [] ∧ d ≠ [] ∧ t ≠ [] ∧
    (∀ c ∈ l ++ d ++ t, okChar c = true)

/-- The fixture cart of spec section 8: two clothing products, qty 2 and 1. -/
def fixtureCart : Cart :=
  [⟨1, "Red Shirt", 19.99, "", "clothing", "", 2⟩,
   ⟨2, "Blue Hat", 9.5, "", "clothing", "", 1⟩]

/-- The first fixture product of spec section 8. -/
def redShirt : Product := ⟨1, "Red Shirt", 19.99, "", "clothing", ""⟩

/-- The second fixture product of spec section 8. -/
def blueHat : Product := ⟨2, "Blue Hat", 9.5, "", "clothing", ""⟩

/- ============================================================
   Cart engine lemmas
   ============================================================ -/

theorem addToCart_absent (p : Product) (c : Cart)
    (h : ∀ l ∈ c, l.id ≠ p.id) : addToCart p c = c ++ [p.toLine 1] := by
  induction c with
  | nil => rfl
  | cons l ls ih =>
    have hl : l.id ≠ p.id := h l (by simp)
    simp only [addToCart, if_neg hl, List.cons_append]
    exact congrArg (l :: ·) (ih fun x hx => h x (by simp [hx]))

theorem addToCart_bump (p : Product) (c : Cart) (q : Int)
    (h : ∀ l ∈ c, l.id ≠ p.id) :
    addToCart p (c ++ [p.toLine q]) = c ++ [p.toLine (q + 1)] := by
  induction c with
  | nil => simp [addToCart, Product.toLine]
  | cons l ls ih =>
    have hl : l.id ≠ p.id := h l (by simp)
    simp only [List.cons_append, addToCart, if_neg hl]
    exact congrArg (l :: ·) (ih fun x hx => h x (by simp [hx]))

theorem cartIds_addToCart_mem (p : Product) (c : Cart)
    (h : p.id ∈ cartIds c) : cartIds (addToCart p c) = cartIds c := by
  induction c with
  | nil => simp [cartIds] at h
  | cons l ls ih =>
    by_cases hl : l.id = p.id
    · simp [addToCart, if_pos hl, cartIds]
    · have h' : p.id ∈ cartIds ls := by
        simp only [cartIds, List.map_cons, List.mem_cons] at h
        rcases h with h | h
        · exact absurd h.symm hl
        · simpa [cartIds] using h
      have ih' := ih h'
      simp only [cartIds] at ih'
      simp only [addToCart, if_neg hl, cartIds, List.map_cons]
      rw [ih']

theorem addToCart_qty (p : Product) (c : Cart)
    (h : ∀ l ∈ c, 1 ≤ l.qty) : ∀ l ∈ addToCart p c, 1 ≤ l.qty := by
  induction c with
  | nil =>
    intro l hl
    simp [addToCart] at hl
    subst hl
    simp [Product.toLine]
  | cons x xs ih =>
    intro l hl
    by_cases hx : x.id = p.id
    · simp [addToCart, if_pos hx] at hl
      rcases hl with hl | hl
      · subst hl
        have := h x (by simp)
        simp only []
        omega
      · exact h l (by simp [hl])
    · simp [addToCart, if_neg hx] at hl
      rcases hl with hl | hl
      · subst hl; exact h l (by simp)
      · exact ih (fun y hy => h y (by simp [hy])) l hl

theorem cartIds_changeQty (id q : Int) (c : Cart) :
    cartIds (changeQty id q c) = cartIds c := by
  induction c with
  | nil => rfl
  | cons l ls ih =>
    by_cases hl : l.id = id
    · simp [changeQty, if_pos hl, cartIds]
    · simp [changeQty, if_neg hl, cartIds] at ih ⊢
      exact ih

theorem changeQty_qty (id q : Int) (c : Cart)
    (h : ∀ l ∈ c, 1 ≤ l.qty) : ∀ l ∈ changeQty id q c, 1 ≤ l.qty := by
  induction c with
  | nil => intro l hl; simp [changeQty] at hl
  | cons x xs ih =>
    intro l hl
    by_cases hx : x.id = id
    · simp [changeQty, if_pos hx] at hl
      rcases hl with hl | hl
      · subst hl
        simp only []
        exact le_max_left 1 _
      · exact h l (by simp [hl])
    · simp [changeQty, if_neg hx] at hl
      rcases hl with hl | hl
      · subst hl; exact h l (by simp)
      · exact ih (fun y hy => h y (by simp [hy])) l hl

theorem changeQty_absent (id q : Int) (c : Cart)
    (h : ∀ l ∈ c, l.id ≠ id) : changeQty id q c = c := by
  induction c with
  | nil => rfl
  | cons l ls ih =>
    have hl : l.id ≠ id := h l (by simp)
    simp only [changeQty, if_neg hl]
    exact congrArg (l :: ·) (ih fun x hx => h x (by simp [hx]))

theorem changeQty_dec_at_one (id : Int) (c : Cart)
    (h : ∀ l ∈ c, l.id = id → l.qty = 1) : changeQty id (-1) c = c := by
  induction c with
  | nil => rfl
  | cons l ls ih =>
    by_cases hl : l.id = id
    · have hq : l.qty = 1 := h l (by simp) hl
      simp only [changeQty, if_pos hl, hq]
      norm_num
      rw [← hq]
    · simp only [changeQty, if_neg hl]
      exact congrArg (l :: ·) (ih fun x hx hid => h x (by simp [hx]) hid)

theorem removeFromCart_no_id (id : Int) (c : Cart) :
    ∀ l ∈ removeFromCart id c, l.id ≠ id := by
  intro l hl
  have := List.of_mem_filter hl
  simpa using this

theorem removeFromCart_mem (id : Int) (c : Cart) :
    ∀ l ∈ removeFromCart id c, l ∈ c := by
  intro l hl
  exact List.mem_of_mem_filter hl

theorem removeFromCart_absent (id : Int) (c : Cart)
    (h : ∀ l ∈ c, l.id ≠ id) : removeFromCart id c = c := by
  unfold removeFromCart
  rw [List.filter_eq_self]
  intro l hl
  simpa using h l hl

theorem cartIds_not_mem (p : Product) (c : Cart)
    (h : p.id ∉ cartIds c) : ∀ l ∈ c, l.id ≠ p.id := by
  intro l hl he
  exact h (List.mem_map.mpr ⟨l, hl, he⟩)

theorem cartInv_nil : cartInv [] := by
  constructor
  · simp [cartIds]
  · intro l hl; simp at hl

theorem cartInv_add (p : Product) (c : Cart) (h : cartInv c) :
    cartInv (addToCart p c) := by
  constructor
  · by_cases hp : p.id ∈ cartIds c
    · rw [cartIds_addToCart_mem p c hp]
      exact h.1
    · rw [addToCart_absent p c (cartIds_not_mem p c hp)]
      simp only [cartIds, List.map_append, List.map_cons, List.map_nil]
      rw [List.nodup_append]
      refine ⟨h.1, by simp, ?_⟩
      intro a ha
      simp only [List.mem_singleton]
      intro hb
      subst hb
      exact hp ha
  · exact addToCart_qty p c h.2

theorem cartInv_changeQty (id q : Int) (c : Cart) (h : cartInv c) :
    cartInv (changeQty id q c) := by
  refine ⟨?_, changeQty_qty id q c h.2⟩
  rw [cartIds_changeQty]
  exact h.1

theorem cartInv_remove (id : Int) (c : Cart) (h : cartInv c) :
    cartInv (removeFromCart id c) := by
  constructor
  · have hsub : (removeFromCart id c).Sublist c := List.filter_sublist c
    exact List.Nodup.sublist (hsub.map CartLine.id) h.1
  · exact fun l hl => h.2 l (removeFromCart_mem id c l hl)

theorem cartInv_clear (confirmed : Bool) (c : Cart) (h : cartInv c) :
    cartInv (clearCart confirmed c) := by
  unfold clearCart
  split
  · exact h
  · split
    · exact cartInv_nil
    · exact h

theorem cartInv_checkout (st : Option Slot) (hid : Bool) (c : Cart)
    (h : cartInv c) : cartInv (checkout ⟨c, st, hid⟩).1.cart := by
  by_cases hc : c.isEmpty
  · simpa [checkout, hc] using h
  · simpa [checkout, hc] using cartInv_nil

/-- Claim C1: every cart state reachable from the empty cart via add,
changeQty, remove, clear and checkout has at most one cart line per product
id, and every line has qty at least 1; changeQty with delta -1 on lines at
qty 1 leaves the cart unchanged (in particular the line is never removed),
and changeQty on an id absent from the cart is a no-op. -/
theorem C1_cart_invariants :
    (∀ c : Cart, Reachable c → cartInv c) ∧
    (∀ (id q : Int) (c : Cart), (∀ l ∈ c, l.id ≠ id) → changeQty id q c = c) ∧
    (∀ (id q : Int) (c : Cart), cartIds (changeQty id q c) = cartIds c) ∧
    (∀ (id : Int) (c : Cart), (∀ l ∈ c, l.id = id → l.qty = 1) →
      changeQty id (-1) c = c) := by
  refine ⟨?_, fun id q c h => changeQty_absent id q c h,
    fun id q c => cartIds_changeQty id q c,
    fun id c h => changeQty_dec_at_one id c h⟩
  intro c h
  induction h with
  | empty => exact cartInv_nil
  | add p _ ih => exact cartInv_add _ _ ih
  | change id q _ ih => exact cartInv_changeQty _ _ _ ih
  | rem id _ ih => exact cartInv_remove _ _ ih
  | clear confirmed _ ih => exact cartInv_clear _ _ ih
  | doCheckout st hid _ ih => exact cartInv_checkout _ _ _ ih

/-- Concrete instance of C1: the empty cart satisfies the invariant, and
changeQty on an id absent from the empty cart is a no-op. -/
theorem C1_cart_invariants_witness :
    cartInv [] ∧ changeQty 7 1 [] = [] := by
  refine ⟨C1_cart_invariants.1 [] Reachable.empty, ?_⟩
  exact C1_cart_invariants.2.1 7 1 [] (by intro l hl; simp at hl)

theorem addTimes_absent (p : Product) (c : Cart)
    (h : ∀ l ∈ c, l.id ≠ p.id) :
    ∀ n : Nat, addTimes p (n + 1) c = c ++ [p.toLine (n + 1)] := by
  intro n
  induction n with
  | zero =>
    show addToCart p (addTimes p 0 c) = c ++ [p.toLine 1]
    simpa [addTimes] using addToCart_absent p c h
  | succ m ih =>
    show addToCart p (addTimes p (m + 1) c) = _
    rw [ih, addToCart_bump p c _ h]
    push_cast
    ring_nf

theorem filter_id_append (p : Product) (c : Cart)
    (h : ∀ l ∈ c, l.id ≠ p.id) (q : Int) :
    (c ++ [p.toLine q]).filter (fun l => l.id == p.id) = [p.toLine q] := by
  rw [List.filter_append]
  have h1 : c.filter (fun l => l.id == p.id) = [] := by
    rw [List.filter_eq_nil_iff]
    intro l hl
    simpa using h l hl
  rw [h1]
  simp [Product.toLine]

/-- Claim C2: starting from a cart with no line for the product id, n
consecutive adds (n at least 1) leave exactly one line for that id, appended
at the end with qty n; the first add appends a fresh line with qty 1, and
each later add increments that line's qty by 1. -/
theorem C2_repeated_add :
    ∀ (p : Product) (c : Cart), (∀ l ∈ c, l.id ≠ p.id) →
      (∀ n : Nat, 1 ≤ n → addTimes p n c = c ++ [p.toLine n]) ∧
      addToCart p c = c ++ [p.toLine 1] ∧
      (∀ q : Int, addToCart p (c ++ [p.toLine q]) = c ++ [p.toLine (q + 1)]) ∧
      (∀ n : Nat, 1 ≤ n →
        (addTimes p n c).filter (fun l => l.id == p.id) = [p.toLine n]) := by
  intro p c h
  have habs : ∀ n : Nat, 1 ≤ n → addTimes p n c = c ++ [p.toLine n] := by
    intro n hn
    obtain ⟨m, rfl⟩ : ∃ m, n = m + 1 := ⟨n - 1, by omega⟩
    exact addTimes_absent p c h m
  refine ⟨habs, addToCart_absent p c h, fun q => addToCart_bump p c q h, ?_⟩
  intro n hn
  rw [habs n hn]
  exact filter_id_append p c h _

/-- Concrete instance of C2: three adds of the fixture product to the empty
cart yield exactly the one line with qty 3. -/
theorem C2_repeated_add_witness :
    addTimes redShirt 3 [] = [redShirt.toLine 3] := by
  have h := (C2_repeated_add redShirt [] (by intro l hl; simp at hl)).1 3
    (by norm_num)
  simpa using h

/-- Claim C7: removing a product id and then adding the product again yields
a fresh line with qty 1, whatever quantity the removed line had; removing an
absent id is a no-op. -/
theorem C7_remove_then_add :
    ∀ (c : Cart) (p : Product) (id : Int),
      ((∀ l ∈ c, l.id ≠ id) → removeFromCart id c = c) ∧
      addToCart p (removeFromCart p.id c)
        = removeFromCart p.id c ++ [p.toLine 1] ∧
      (addToCart p (removeFromCart p.id c)).filter (fun l => l.id == p.id)
        = [p.toLine 1] := by
  intro c p id
  have habs : ∀ l ∈ removeFromCart p.id c, l.id ≠ p.id :=
    removeFromCart_no_id p.id c
  refine ⟨removeFromCart_absent id c, addToCart_absent p _ habs, ?_⟩
  rw [addToCart_absent p _ habs]
  exact filter_id_append p _ habs 1

/-- Concrete instance of C7: on a cart holding the fixture product with
qty 5, removing an absent id is a no-op, and remove-then-add yields the
fresh line with qty 1. -/
theorem C7_remove_then_add_witness :
    removeFromCart 9 [redShirt.toLine 5] = [redShirt.toLine 5] ∧
    (addToCart redShirt
        (removeFromCart redShirt.id [redShirt.toLine 5])).filter
      (fun l => l.id == redShirt.id) = [redShirt.toLine 1] := by
  refine ⟨(C7_remove_then_add [redShirt.toLine 5] redShirt 9).1 ?_,
    (C7_remove_then_add [redShirt.toLine 5] redShirt 9).2.2⟩
  intro l hl
  simp at hl
  subst hl
  simp [redShirt, Product.toLine]

/- ============================================================
   Totals, checkout, persistence, dispatch
   ============================================================ -/

theorem foldl_qty (c : Cart) :
    ∀ a : Int, c.foldl (fun a i => a + i.qty) a
      = a + (c.map CartLine.qty).sum := by
  induction c with
  | nil => simp
  | cons l ls ih =>
    intro a
    rw [List.foldl_cons, ih]
    simp only [List.map_cons, List.sum_cons]
    ring

theorem foldl_price_qty (c : Cart) :
    ∀ a : ℚ, c.foldl (fun t i => t + i.price * (i.qty : ℚ)) a
      = a + (c.map (fun l => l.price * (l.qty : ℚ))).sum := by
  induction c with
  | nil => simp
  | cons l ls ih =>
    intro a
    rw [List.foldl_cons, ih]
    simp only [List.map_cons, List.sum_cons]
    ring

/-- Claim C5: the item count shown by updateCartUI is the sum of the
quantities and the grand total is the sum of price times quantity; on the
fixture cart the item count is 3 and the displayed (2-decimal) grand total
is 49.48. -/
theorem C5_totals :
    (∀ c : Cart, cartItemCount c = (c.map CartLine.qty).sum) ∧
    (∀ c : Cart, cartGrandTotal c
      = (c.map (fun l => l.price * (l.qty : ℚ))).sum) ∧
    cartItemCount fixtureCart = 3 ∧
    cartGrandTotal fixtureCart = 49.48 ∧
    round2 (cartGrandTotal fixtureCart) = 49.48 := by
  have h1 : ∀ c : Cart, cartItemCount c = (c.map CartLine.qty).sum := by
    intro c
    rw [cartItemCount, foldl_qty]
    ring
  have h2 : ∀ c : Cart, cartGrandTotal c
      = (c.map (fun l => l.price * (l.qty : ℚ))).sum := by
    intro c
    rw [cartGrandTotal, foldl_price_qty]
    ring
  have htot : cartGrandTotal fixtureCart = 49.48 := by
    rw [h2]
    norm_num [fixtureCart]
  refine ⟨h1, h2, ?_, htot, ?_⟩
  · rw [h1]
    norm_num [fixtureCart]
  · rw [htot]
    have hcast : (49.48 : ℚ) * 100 = ((4948 : ℤ) : ℚ) := by norm_num
    rw [round2, hcast, round_intCast]
    norm_num

/-- Claim C6: checkout on an empty cart emits the empty-cart notice and
changes nothing (no persistence write, no view change); checkout on a
non-empty cart emits the success notice, unconditionally empties the cart,
persists the empty cart, and closes the cart panel. -/
theorem C6_checkout :
    ∀ s : AppState,
      (s.cart = [] → checkout s = (s, ["Carrito vacío"])) ∧
      (s.cart ≠ [] →
        checkout s
          = (AppState.mk [] (saveCart []) true, ["Compra realizada (demo)"])) := by
  intro s
  constructor
  · intro h
    simp [checkout, h]
  · intro h
    rcases hc : s.cart with _ | ⟨l, ls⟩
    · exact absurd hc h
    · simp [checkout, hc]

/-- Concrete instance of C6: an empty state is unchanged, the fixture state
is emptied, persisted and closed. -/
theorem C6_checkout_witness :
    checkout ⟨[], none, true⟩ = (⟨[], none, true⟩, ["Carrito vacío"]) ∧
    checkout ⟨fixtureCart, none, false⟩
      = (AppState.mk [] (saveCart []) true, ["Compra realizada (demo)"]) := by
  exact ⟨(C6_checkout ⟨[], none, true⟩).1 rfl,
    (C6_checkout ⟨fixtureCart, none, false⟩).2 (by simp [fixtureCart])⟩

theorem decodeLine_encodeLine (l : CartLine) :
    decodeLine (encodeLine l) = some l := by
  simp [decodeLine, encodeLine, Rat.den_intCast, Rat.num_intCast]

theorem decodeCart_encodeCart (c : Cart) :
    decodeCart (encodeCart c) = some c := by
  simp only [decodeCart, encodeCart]
  induction c with
  | nil => rfl
  | cons l ls ih =>
    simp [decodeLines, decodeLine_encodeLine l, ih]

/-- Claim C4: saving a cart and then loading yields an equal cart, for every
cart; load is total (it never raises) and returns the empty cart on a
missing slot, on malformed content, and on any deserialization failure
(a parse that throws, or a parse producing a falsy value). -/
theorem C4_persistence_roundtrip :
    (∀ c : Cart, decodeCart (loadCart (saveCart c)) = some c) ∧
    loadCart none = JVal.arr [] ∧
    loadCart (some Slot.malformed) = JVal.arr [] ∧
    (∀ v : JVal, jsFalsy v = true →
      loadCart (some (Slot.wellFormed v)) = JVal.arr []) ∧
    decodeCart (JVal.arr []) = some [] := by
  refine ⟨?_, rfl, rfl, ?_, rfl⟩
  · intro c
    have hload : loadCart (saveCart c) = encodeCart c := by
      simp [loadCart, saveCart, encodeCart, jsFalsy]
    rw [hload]
    exact decodeCart_encodeCart c
  · intro v hv
    simp [loadCart, hv]

/-- Concrete instance of C4: a stored null loads as the empty cart, and the
fixture cart round-trips. -/
theorem C4_persistence_roundtrip_witness :
    jsFalsy JVal.null = true ∧
    loadCart (some (Slot.wellFormed JVal.null)) = JVal.arr [] ∧
    decodeCart (loadCart (saveCart fixtureCart)) = some fixtureCart := by
  exact ⟨rfl, C4_persistence_roundtrip.2.2.2.1 JVal.null rfl,
    C4_persistence_roundtrip.1 fixtureCart⟩

/-- Claim C9: loadCart performs no shape validation after a successful
parse: every truthy parsed value is returned as-is, in particular the empty
object and an array holding a line with qty 0, neither of which is the
serialization of any cart (so the invariants need not hold at startup). -/
theorem C9_load_no_validation :
    (∀ v : JVal, jsFalsy v = false →
      loadCart (some (Slot.wellFormed v)) = v) ∧
    loadCart (some (Slot.wellFormed (JVal.obj []))) = JVal.obj [] ∧
    (∀ c : Cart, encodeCart c ≠ JVal.obj []) ∧
    loadCart (some (Slot.wellFormed
        (JVal.arr [JVal.obj [("id", JVal.num 1), ("qty", JVal.num 0)]])))
      = JVal.arr [JVal.obj [("id", JVal.num 1), ("qty", JVal.num 0)]] ∧
    decodeCart (JVal.arr [JVal.obj [("id", JVal.num 1), ("qty", JVal.num 0)]])
      = none := by
  refine ⟨?_, rfl, ?_, rfl, ?_⟩
  · intro v hv
    simp [loadCart, hv]
  · intro c
    cases c <;> simp [encodeCart]
  · rfl

/-- Concrete instance of C9: the empty object is truthy, is loaded as-is,
and is not the serialization of the empty cart. -/
theorem C9_load_no_validation_witness :
    jsFalsy (JVal.obj []) = false ∧
    loadCart (some (Slot.wellFormed (JVal.obj []))) = JVal.obj [] ∧
    encodeCart [] ≠ JVal.obj [] := by
  exact ⟨rfl, C9_load_no_validation.1 (JVal.obj []) rfl,
    C9_load_no_validation.2.2.1 []⟩

/-- Claim C10 as stated is false at the clicked id 0: the fixture catalog
has no product with id 0, yet the dispatch is a silent no-op (the falsy-id
guard returns with the cart unchanged), not an error. -/
theorem C10_guard_counterexample :
    redShirt.id ≠ 0 ∧
    handleAddClick [redShirt] 0 [] = some [] ∧
    some ([] : Cart) ≠ none := by
  refine ⟨by decide, rfl, by simp⟩

/-- Claim C10 (amended): the add dispatch has no guard for a missing
product beyond the falsy-id check: the clicked id 0 is silently ignored
(cart unchanged); for every other id with no matching product the call
reaches addToCart with undefined and fails (modelled by none) instead of
being a silent no-op; and when a product with the (nonzero) id exists the
add succeeds with the found product. -/
theorem C10_add_requires_existing_product :
    ∀ (prods : List Product) (id : Int) (c : Cart),
      (id = 0 → handleAddClick prods id c = some c) ∧
      (id ≠ 0 → (∀ p ∈ prods, p.id ≠ id) →
        handleAddClick prods id c = none) ∧
      (id ≠ 0 → (∃ p ∈ prods, p.id = id) →
        ∃ prod ∈ prods, prod.id = id ∧
          handleAddClick prods id c = some (addToCart prod c)) := by
  intro prods id c
  refine ⟨?_, ?_, ?_⟩
  · intro h
    simp [handleAddClick, h]
  · intro h0 h
    have hn : prods.find? (fun p => p.id == id) = none := by
      rw [List.find?_eq_none]
      intro p hp
      simpa using h p hp
    simp [handleAddClick, h0, hn]
  · rintro h0 ⟨p, hp, hid⟩
    have hs : (prods.find? (fun p => p.id == id)).isSome := by
      rw [List.find?_isSome]
      exact ⟨p, hp, by simpa using hid⟩
    obtain ⟨prod, hfind⟩ := Option.isSome_iff_exists.mp hs
    have hmem := List.mem_of_find?_eq_some hfind
    have hpid : prod.id = id := by
      have := List.find?_some hfind
      simpa using this
    exact ⟨prod, hmem, hpid, by simp [handleAddClick, h0, hfind]⟩

/-- Concrete instance of C10 (amended): clicking id 0 leaves the cart
untouched, clicking id 42 with only the fixture product loaded fails, and
clicking id 1 adds the fixture product. -/
theorem C10_add_requires_existing_product_witness :
    handleAddClick [redShirt] 0 [] = some [] ∧
    handleAddClick [redShirt] 42 [] = none ∧
    handleAddClick [redShirt] 1 [] = some (addToCart redShirt []) := by
  refine ⟨(C10_add_requires_existing_product [redShirt] 0 []).1 rfl, ?_, ?_⟩
  · refine (C10_add_requires_existing_product [redShirt] 42 []).2.1
      (by decide) ?_
    intro p hp
    simp at hp
    subst hp
    decide
  · obtain ⟨prod, hmem, hid, heq⟩ :=
      (C10_add_requires_existing_product [redShirt] 1 []).2.2 (by decide)
        ⟨redShirt, by simp, rfl⟩
    simp at hmem
    subst hmem
    exact heq

/- ============================================================
   Substring matching (filters)
   ============================================================ -/

theorem listStartsWith_iff (sub : List Char) :
    ∀ l : List Char, listStartsWith sub l = true ↔ ∃ t, l = sub ++ t := by
  induction sub with
  | nil =>
    intro l
    simp [listStartsWith]
  | cons a as ih =>
    intro l
    cases l with
    | nil =>
      simp [listStartsWith]
    | cons b bs =>
      constructor
      · intro h
        rw [listStartsWith] at h
        simp only [Bool.and_eq_true, beq_iff_eq] at h
        obtain ⟨rfl, h2⟩ := h
        obtain ⟨t, rfl⟩ := (ih bs).mp h2
        exact ⟨t, rfl⟩
      · rintro ⟨t, ht⟩
        obtain ⟨rfl, rfl⟩ : b = a ∧ bs = as ++ t := by
          simpa using ht
        rw [listStartsWith]
        simp [(ih (as ++ t)).mpr ⟨t, rfl⟩]

theorem listContainsSub_iff (sub : List Char) :
    ∀ l : List Char, listContainsSub sub l = true ↔
      ∃ a b, l = a ++ sub ++ b := by
  intro l
  induction l with
  | nil =>
    rw [listContainsSub, listStartsWith_iff]
    constructor
    · rintro ⟨t, ht⟩
      exact ⟨[], t, by simpa using ht⟩
    · rintro ⟨a, b, h⟩
      obtain ⟨ha, hs, hb⟩ : a = [] ∧ sub = [] ∧ b = [] := by
        have h' := h.symm
        simpa [List.append_eq_nil] using h'
      exact ⟨b, by simp [hs, hb]⟩
  | cons c rest ih =>
    rw [listContainsSub]
    simp only [Bool.or_eq_true, listStartsWith_iff, ih]
    constructor
    · rintro (⟨t, ht⟩ | ⟨a, b, rfl⟩)
      · exact ⟨[], t, by simpa using ht⟩
      · exact ⟨c :: a, b, by simp⟩
    · rintro ⟨a, b, h⟩
      cases a with
      | nil =>
        exact Or.inl ⟨b, by simpa using h⟩
      | cons a0 as =>
        obtain ⟨rfl, hrest⟩ : a0 = c ∧ rest = as ++ sub ++ b := by
          have := h
          simp only [List.cons_append, List.cons.injEq] at this
          exact ⟨this.1.symm, this.2⟩
        exact Or.inr ⟨as, b, hrest⟩

theorem listContainsSub_nil (l : List Char) : listContainsSub [] l = true := by
  cases l <;> simp [listContainsSub, listStartsWith]

theorem strIncludes_lower_iff (q s : String) :
    strIncludes (toLowerStr s) (toLowerStr q) = true ↔ ciSubstring q s := by
  rw [strIncludes, listContainsSub_iff, ciSubstring]

/-- Claim C3: for every catalog and filter criteria whose query carries no
surrounding whitespace, applyFilters returns exactly the products whose
category matches the criteria (with the sentinel all matching everything)
and whose title or description contains the query case-insensitively, in
catalog order; with the sentinel category and the empty query the whole
catalog is returned in its original order. -/
theorem C3_applyFilters_spec :
    ∀ (prods : List Product) (cat query : String), jsTrim query = query →
      (applyFilters prods cat query).Sublist prods ∧
      (∀ p, p ∈ applyFilters prods cat query ↔
        p ∈ prods ∧ specFilterMatch cat query p) ∧
      applyFilters prods "all" "" = prods := by
  intro prods cat query hq
  refine ⟨List.filter_sublist prods, ?_, ?_⟩
  · intro p
    simp only [applyFilters, List.mem_filter, Bool.and_eq_true,
      Bool.or_eq_true, beq_iff_eq, hq]
    rw [specFilterMatch]
    constructor
    · rintro ⟨hp, h1, h2⟩
      refine ⟨hp, h1, ?_⟩
      rcases h2 with h2 | h2
      · exact Or.inl ((strIncludes_lower_iff query p.title).mp h2)
      · exact Or.inr ((strIncludes_lower_iff query p.description).mp h2)
    · rintro ⟨hp, h1, h2⟩
      refine ⟨hp, h1, ?_⟩
      rcases h2 with h2 | h2
      · exact Or.inl ((strIncludes_lower_iff query p.title).mpr h2)
      · exact Or.inr ((strIncludes_lower_iff query p.description).mpr h2)
  · rw [applyFilters, List.filter_eq_self]
    intro p hp
    have h0 : toLowerStr (jsTrim "") = "" := by decide
    simp only [h0, Bool.and_eq_true, Bool.or_eq_true, beq_iff_eq]
    exact ⟨Or.inl trivial, Or.inl (listContainsSub_nil _)⟩

/-- Concrete instance of C3: on the two-product fixture catalog, the
sentinel category with the empty query returns the catalog unchanged. -/
theorem C3_applyFilters_spec_witness :
    jsTrim "" = "" ∧
    applyFilters [redShirt, blueHat] "all" "" = [redShirt, blueHat] := by
  exact ⟨by decide, (C3_applyFilters_spec [redShirt, blueHat] "all" ""
    (by decide)).2.2⟩

/- ============================================================
   Email regex (contact form)
   ============================================================ -/

theorem dotNotLast_iff : ∀ cs : List Char,
    dotNotLast cs = true ↔ ∃ d t, cs = d ++ '.' :: t ∧ t ≠ [] := by
  intro cs
  induction cs with
  | nil =>
    constructor
    · intro h
      simp [dotNotLast] at h
    · rintro ⟨d, t, heq, -⟩
      exact absurd heq.symm (by simp)
  | cons c tail ih =>
    cases tail with
    | nil =>
      constructor
      · intro h
        simp [dotNotLast] at h
      · rintro ⟨d, t, heq, ht⟩
        cases d with
        | nil =>
          simp only [List.nil_append, List.cons.injEq] at heq
          exact absurd heq.2.symm ht
        | cons d0 ds =>
          simp only [List.cons_append, List.cons.injEq] at heq
          exact absurd heq.2.symm (by simp)
    | cons c2 rest =>
      rw [dotNotLast]
      simp only [Bool.or_eq_true, beq_iff_eq, ih]
      constructor
      · rintro (rfl | ⟨d, t, heq, ht⟩)
        · exact ⟨[], c2 :: rest, rfl, by simp⟩
        · exact ⟨c :: d, t, by simp [heq], ht⟩
      · rintro ⟨d, t, heq, ht⟩
        cases d with
        | nil =>
          simp only [List.nil_append, List.cons.injEq] at heq
          exact Or.inl heq.1
        | cons d0 ds =>
          simp only [List.cons_append, List.cons.injEq] at heq
          exact Or.inr ⟨ds, t, heq.2, ht⟩

theorem dotSplitOk_iff : ∀ cs : List Char,
    dotSplitOk cs = true ↔
      ∃ d t, cs = d ++ '.' :: t ∧ d ≠ [] ∧ t ≠ [] := by
  intro cs
  cases cs with
  | nil =>
    constructor
    · intro h
      simp [dotSplitOk] at h
    · rintro ⟨d, t, heq, -, -⟩
      exact absurd heq.symm (by simp)
  | cons c tail =>
    rw [dotSplitOk, dotNotLast_iff]
    constructor
    · rintro ⟨d, t, heq, ht⟩
      exact ⟨c :: d, t, by simp [heq], by simp, ht⟩
    · rintro ⟨d, t, heq, hd, ht⟩
      cases d with
      | nil => exact absurd rfl hd
      | cons d0 ds =>
        simp only [List.cons_append, List.cons.injEq] at heq
        exact ⟨ds, t, heq.2, ht⟩

theorem dropWhile_head_not (p : Char → Bool) :
    ∀ (l : List Char) (c : Char) (rest : List Char),
      l.dropWhile p = c :: rest → p c = false := by
  intro l
  induction l with
  | nil =>
    intro c rest h
    simp [List.dropWhile] at h
  | cons a as ih =>
    intro c rest h
    rw [List.dropWhile_cons] at h
    by_cases hp : p a = true
    · rw [if_pos hp] at h
      exact ih c rest h
    · rw [if_neg hp] at h
      injection h with h1 h2
      subst h1
      simpa using hp

theorem takeWhile_drop_at (l r : List Char)
    (h : ∀ c ∈ l, okChar c = true) :
    (l ++ '@' :: r).takeWhile (fun c => c != '@') = l ∧
    (l ++ '@' :: r).dropWhile (fun c => c != '@') = '@' :: r := by
  induction l with
  | nil =>
    constructor
    · rw [List.nil_append, List.takeWhile_cons]
      simp
    · rw [List.nil_append, List.dropWhile_cons]
      simp
  | cons a as ih =>
    have ha : okChar a = true := h a (by simp)
    have ha' : (a != '@') = true := by
      rw [okChar, Bool.and_eq_true] at ha
      exact ha.2
    have ih' := ih (fun c hc => h c (by simp [hc]))
    constructor
    · rw [List.cons_append, List.takeWhile_cons, if_pos ha', ih'.1]
    · rw [List.cons_append, List.dropWhile_cons, if_pos ha']
      exact ih'.2

theorem emailChars_iff (cs : List Char) :
    emailChars cs = true ↔
      ∃ l d t : List Char,
        cs = l ++ '@' :: (d ++ '.' :: t) ∧
        l ≠ [] ∧ d ≠ [] ∧ t ≠ [] ∧
        (∀ c ∈ l ++ d ++ t, okChar c = true) := by
  constructor
  · intro h
    rcases hdrop : cs.dropWhile (fun c => c != '@') with _ | ⟨c0, rest⟩
    · unfold emailChars at h
      rw [hdrop] at h
      simp at h
    · unfold emailChars at h
      rw [hdrop] at h
      simp only [Bool.and_eq_true, beq_iff_eq, Bool.not_eq_true',
        List.all_eq_true] at h
      obtain ⟨⟨⟨⟨⟨hc0, hne⟩, hall⟩, hrne⟩, hrall⟩, hdot⟩ := h
      have hne' : cs.takeWhile (fun c => c != '@') ≠ [] := by
        intro heq
        rw [heq] at hne
        exact absurd hne (by simp)
      obtain ⟨d, t, hrest, hd, ht⟩ := (dotSplitOk_iff rest).mp hdot
      have hcs := List.takeWhile_append_dropWhile (fun c => c != '@') cs
      refine ⟨cs.takeWhile (fun c => c != '@'), d, t, ?_, hne', hd, ht, ?_⟩
      · rw [hdrop, hc0, hrest] at hcs
        exact hcs.symm
      · intro c hc
        simp only [List.append_assoc, List.mem_append] at hc
        rcases hc with hc | hc | hc
        · exact hall c hc
        · refine hrall c ?_
          rw [hrest]
          exact List.mem_append_left _ hc
        · refine hrall c ?_
          rw [hrest]
          exact List.mem_append_right _ (by simp [hc])
  · rintro ⟨l, d, t, rfl, hl, hd, ht, hok⟩
    have hl' : ∀ c ∈ l, okChar c = true := fun c hc => hok c (by simp [hc])
    have hd' : ∀ c ∈ d, okChar c = true := fun c hc => hok c (by simp [hc])
    have ht' : ∀ c ∈ t, okChar c = true := fun c hc => hok c (by simp [hc])
    obtain ⟨htake, hdrop⟩ := takeWhile_drop_at l (d ++ '.' :: t) hl'
    have h1 : (!l.isEmpty) = true := by
      cases l
      · exact absurd rfl hl
      · rfl
    have h3 : l.all okChar = true := List.all_eq_true.mpr hl'
    have h4 : (!(d ++ '.' :: t).isEmpty) = true := by
      cases d <;> rfl
    have h5 : (d ++ '.' :: t).all okChar = true := by
      rw [List.all_eq_true]
      intro c hc
      simp only [List.mem_append, List.mem_cons] at hc
      rcases hc with hc | hc | hc
      · exact hd' c hc
      · subst hc
        decide
      · exact ht' c hc
    have h6 : dotSplitOk (d ++ '.' :: t) = true :=
      (dotSplitOk_iff _).mpr ⟨d, t, rfl, hd, ht⟩
    unfold emailChars
    rw [hdrop]
    simp [htake, h1, h3, h4, h5, h6]

theorem emailRegexTest_iff (s : String) :
    emailRegexTest s = true ↔ specEmailShaped s := by
  rw [emailRegexTest, specEmailShaped]
  exact emailChars_iff s.toList

/-- Claim C8: validation (the trimming done by handleContactForm followed by
validateContact) flags the name iff the trimmed name has fewer than 2
characters, flags the email iff the trimmed email does not have the spec's
local at-sign domain dot tld shape, and flags the message iff the trimmed
message has fewer than 10 characters; a field with no violation is absent;
the all-valid fixture yields the empty mapping and the all-invalid fixture
flags all three fields. -/
theorem C8_validateContact_spec :
    (∀ n e m : String,
      ((validateContact (contactFormData n e m)).name.isSome = true ↔
        (jsTrim n).length < 2) ∧
      ((validateContact (contactFormData n e m)).email.isSome = true ↔
        ¬ specEmailShaped (jsTrim e)) ∧
      ((validateContact (contactFormData n e m)).message.isSome = true ↔
        (jsTrim m).length < 10)) ∧
    validateContact (contactFormData "Ana" "a@b.co" "This is long enough.")
      = ⟨none, none, none⟩ ∧
    (validateContact (contactFormData "A" "bad" "short")).name.isSome = true ∧
    (validateContact (contactFormData "A" "bad" "short")).email.isSome = true ∧
    (validateContact (contactFormData "A" "bad" "short")).message.isSome
      = true := by
  refine ⟨?_, by decide, by decide, by decide, by decide⟩
  intro n e m
  refine ⟨?_, ?_, ?_⟩
  · by_cases h : (jsTrim n).length < 2 <;>
      simp [validateContact, contactFormData, h]
  · by_cases h : emailRegexTest (jsTrim e) = true
    · simp only [validateContact, contactFormData]
      rw [if_pos h]
      constructor
      · intro hf
        exact absurd hf (by simp)
      · intro hns
        exact absurd ((emailRegexTest_iff _).mp h) hns
    · simp only [validateContact, contactFormData]
      rw [if_neg h]
      constructor
      · intro _ hs
        exact h ((emailRegexTest_iff _).mpr hs)
      · intro _
        rfl
  · by_cases h : (jsTrim m).length < 10 <;>
      simp [validateContact, contactFormData, h]

/-- Concrete instance of C5: the fixture item count. -/
theorem C5_totals_witness : cartItemCount fixtureCart = 3 :=
  C5_totals.2.2.1

/-- Concrete instance of C8: the all-valid fixture yields the empty
mapping. -/
theorem C8_validateContact_spec_witness :
    validateContact (contactFormData "Ana" "a@b.co" "This is long enough.")
      = ⟨none, none, none⟩ :=
  C8_validateContact_spec.2.1
